import Mathlib

/-!
# Verification of the gcra-rs rate-limiting core

A shallow embedding of the `gcra` crate's core (`src/gcra.rs`,
`src/rate_limit.rs`, `src/rate_limiter/entry.rs`,
`src/rate_limiter/rate_limiter.rs`) together with proofs of the spec's
testable properties.

Modelling conventions:
* `std::time::Instant` is modelled as `Int` (an unbounded nanosecond
  timeline; `Instant`'s representation-overflow panics at astronomical
  values are out of scope).
* `std::time::Duration` is modelled as `Nat` (nanoseconds).
* Rust `u32` values (`resource_limit`, `cost`) are modelled as `Nat`;
  the arithmetic the code performs on them never overflows `u32` in the
  regimes the claims quantify over, except where noted explicitly
  (the subtraction in `remaining_resources`, which is modelled fallibly).
* `Result<T, E>` is modelled as `Except E T`; `&mut self` methods are
  modelled as functions returning the result paired with the new state.
* The `f32` arithmetic inside `remaining_resources`
  (`div_duration_f32`, `ceil`, the saturating cast) is modelled exactly:
  binary32 values are dyadic rationals `sig * 2 ^ exp` and every
  operation is the exact rational operation followed by
  round-to-nearest-even to 24 significant bits, which is the IEEE-754
  semantics on the normal range the code stays in.
-/

set_option autoImplicit false

namespace Gcra

/-- Structure `RateLimit` from `src/rate_limit.rs`: a resource limit, a period,
and the derived per-unit `emission_interval`. -/
structure RateLimit where
  resource_limit : Nat
  period : Nat
  emission_interval : Nat
deriving DecidableEq, Repr

/-- Constructor `RateLimit::new` from `src/rate_limit.rs`. The Rust body is
`emission_interval = period / resource_limit` with no validation:
`Duration / u32` panics on a zero divisor, which we model as `none`;
every other input constructs the value (integer division truncates). -/
def RateLimit.new (resource_limit : Nat) (period : Nat) : Option RateLimit :=
  if resource_limit = 0 then
    none
  else
    some { resource_limit := resource_limit
           period := period
           emission_interval := period / resource_limit }

/-- Method `RateLimit::increment_interval` from `src/rate_limit.rs`:
`emission_interval * cost`. -/
def RateLimit.increment_interval (rl : RateLimit) (cost : Nat) : Nat :=
  rl.emission_interval * cost

/-- Error enum `GcraError` from `src/gcra.rs`. -/
inductive GcraError where
  | DeniedIndefinitely (cost : Nat) (rate_limit : RateLimit)
  | DeniedUntil (next_allowed_at : Int)
deriving DecidableEq, Repr

/-- State `GcraState` from `src/gcra.rs`: the theoretical arrival time,
unset for a virgin state. -/
structure GcraState where
  tat : Option Int
deriving DecidableEq, Repr

/-- The virgin state, `GcraState::default()`. -/
def GcraState.default : GcraState := { tat := none }

/-- The closure `compute_tat` from `GcraState::check_and_modify_at`
(`src/gcra.rs`), lifted to a top-level function of its captures
(`increment_interval`, `cost`, `rate_limit`): deny indefinitely when the
increment exceeds the whole period, otherwise advance the given base. -/
def compute_tat (increment_interval : Nat) (cost : Nat) (rl : RateLimit)
    (new_tat : Int) : Except GcraError Int :=
  if increment_interval > rl.period then
    .error (.DeniedIndefinitely cost rl)
  else
    .ok (new_tat + increment_interval)

/-- Method `GcraState::check_and_modify_at` from `src/gcra.rs`. The `&mut self`
receiver is modelled by returning the updated state next to the
`Result`; the `?` propagation on `compute_tat` leaves the state
untouched, exactly as the Rust early return does. -/
def GcraState.check_and_modify_at (s : GcraState) (rate_limit : RateLimit)
    (arrived_at : Int) (cost : Nat) : Except GcraError Unit × GcraState :=
  let increment_interval := rate_limit.increment_interval cost
  match s.tat with
  | none =>
    -- First ever request. Allow passage and update self.
    match compute_tat increment_interval cost rate_limit arrived_at with
    | .error e => (.error e, s)
    | .ok new_tat => (.ok (), { tat := some new_tat })
  | some tat =>
    if tat < arrived_at then
      -- prev request was really old
      let new_tat := max tat arrived_at
      match compute_tat increment_interval cost rate_limit new_tat with
      | .error e => (.error e, s)
      | .ok t => (.ok (), { tat := some t })
    else
      -- prev request was recent and there is a possibility that we reached the limit
      let delay_variation_tolerance := rate_limit.period
      match compute_tat increment_interval cost rate_limit tat with
      | .error e => (.error e, s)
      | .ok new_tat =>
        let next_allowed_at := new_tat - delay_variation_tolerance
        if next_allowed_at < arrived_at then
          (.ok (), { tat := some new_tat })
        else
          (.error (.DeniedUntil next_allowed_at), s)

/-! ### An exact model of the `f32` arithmetic used by `remaining_resources`

`GcraState::remaining_resources` computes its consumed count through
`Duration::div_duration_f32` and `f32::ceil`. IEEE-754 binary32 values
are exactly representable dyadic rationals, and every binary32
operation is the exact rational operation followed by
round-to-nearest-even to 24 significant bits. The model below
represents a nonnegative binary32 value exactly as `sig * 2 ^ exp` and
implements that rounding for the normal range; the code's operands
never reach the subnormal range (every positive quotient here is at
least `2⁻⁹⁴`), the infinite range (every value here is below `2¹²⁸`),
or NaN (the zero-period divisor is excluded before the division), so
the normal-range rounding is faithful on every reachable input, and
negative values never arise. Everything is structural `Nat`/`Int`
arithmetic, so concrete runs evaluate by `decide`. -/

/-- A nonnegative binary32 value, exactly `sig * 2 ^ exp`. -/
structure F32 where
  sig : Nat
  exp : Int
deriving DecidableEq, Repr

/-- The value of an `F32` as an exact fraction `(numerator, power-of-two
denominator)`. -/
def F32.frac (x : F32) : Nat × Nat :=
  if 0 ≤ x.exp then (x.sig * 2 ^ x.exp.toNat, 1)
  else (x.sig, 2 ^ (-x.exp).toNat)

/-- Floor of the base-two logarithm, by structural recursion on a fuel
bound (so that it reduces inside the kernel). -/
def log2fuel : Nat → Nat → Nat
  | 0, _ => 0
  | fuel + 1, n => if n < 2 then 0 else log2fuel fuel (n / 2) + 1

/-- Floor of the base-two logarithm of a positive natural. -/
def natLog2 (n : Nat) : Nat := log2fuel n n

/-- Test `2 ^ e ≤ a / b` for positive naturals `a`, `b` and an integer
exponent `e`. -/
def pow2_le (e : Int) (a b : Nat) : Bool :=
  if 0 ≤ e then decide (b * 2 ^ e.toNat ≤ a)
  else decide (b ≤ a * 2 ^ (-e).toNat)

/-- Floor of the base-two logarithm of `a / b`, for positive `a`, `b`.
The answer lies within one of `natLog2 a - natLog2 b`; the candidates
are tested from above. -/
def ratFloorLog2 (a b : Nat) : Int :=
  let L : Int := (natLog2 a : Int) - (natLog2 b : Int)
  if pow2_le (L + 1) a b then L + 1
  else if pow2_le L a b then L
  else L - 1

/-- Round the nonnegative fraction `x / y` to the nearest integer, ties
to even — the IEEE-754 default rounding direction. -/
def rne_frac (x y : Nat) : Nat :=
  let n := x / y
  let r := x % y
  if 2 * r < y then n
  else if y < 2 * r then n + 1
  else if n % 2 = 0 then n else n + 1

/-- Round the nonnegative rational `a / b` to the nearest IEEE-754
binary32 value (24 significant bits, ties to even), exact on the normal
range; see the section comment for why that covers every reachable
input. The significand is obtained by scaling `a / b` into
`[2²³, 2²⁴]` at exponent `e = ⌊log₂ (a / b)⌋` and rounding; the
carried case `m = 2²⁴` needs no renormalization since the represented
value is exact either way. -/
def roundF32 (a b : Nat) : F32 :=
  if a = 0 then ⟨0, 0⟩
  else
    let e := ratFloorLog2 a b
    let m := if 0 ≤ 23 - e then rne_frac (a * 2 ^ (23 - e).toNat) b
             else rne_frac a (b * 2 ^ (e - 23).toNat)
    ⟨m, e - 23⟩

/-- Integer-to-`f32` conversion (`as f32` on `u32`/`u64`): exact value,
rounded to nearest, ties to even. -/
def f32ofNat (n : Nat) : F32 := roundF32 n 1

/-- Binary32 addition: exact sum, correctly rounded. -/
def f32add (x y : F32) : F32 :=
  let (a1, b1) := x.frac
  let (a2, b2) := y.frac
  roundF32 (a1 * b2 + a2 * b1) (b1 * b2)

/-- Binary32 multiplication: exact product, correctly rounded. -/
def f32mul (x y : F32) : F32 :=
  let (a1, b1) := x.frac
  let (a2, b2) := y.frac
  roundF32 (a1 * a2) (b1 * b2)

/-- Binary32 division: exact quotient, correctly rounded. The
zero-divisor guard covers the NaN/infinity outcomes, which are
unreachable here (the divisor is a positive duration). -/
def f32div (x y : F32) : F32 :=
  if y.sig = 0 then ⟨0, 0⟩
  else
    let (a1, b1) := x.frac
    let (a2, b2) := y.frac
    roundF32 (a1 * b2) (b1 * a2)

/-- The `f32` nanosecond count of a `Duration`, as computed inside
`Duration::div_duration_f32` (Rust std, 1.80+):
`(self.secs as f32) * (NANOS_PER_SEC as f32) + (self.subsec_nanos as f32)`.
Durations are modelled as nanosecond counts, so the seconds part is
`nanos / 10⁹` and the subsecond part `nanos % 10⁹`. -/
def duration_as_f32_nanos (nanos : Nat) : F32 :=
  f32add (f32mul (f32ofNat (nanos / 1000000000)) (f32ofNat 1000000000))
    (f32ofNat (nanos % 1000000000))

/-- `Duration::div_duration_f32`: the ratio of the two durations'
`f32` nanosecond counts, in binary32 arithmetic. -/
def div_duration_f32 (self rhs : Nat) : F32 :=
  f32div (duration_as_f32_nanos self) (duration_as_f32_nanos rhs)

/-- `f32::ceil` followed by the saturating `as u32` cast: `ceil` of a
binary32 value is exactly representable, and the cast clamps to
`[0, u32::MAX]`. Negative values and NaN (which the cast would send to
`0`) cannot arise in this nonnegative representation. -/
def f32_ceil_as_u32 (x : F32) : Nat :=
  let (a, b) := x.frac
  min ((a + b - 1) / b) (2 ^ 32 - 1)

/-- Method `GcraState::remaining_resources` from `src/gcra.rs`.
`tat.checked_duration_since(now)` is `none` when `tat` is unset or
`tat < now`, in which case the full limit is returned. The source's
`(time_to_tat * resource_limit).div_duration_f32(period)` followed by
`.ceil() as u32` is modelled by the exact binary32 semantics above. The
final `resource_limit - consumed` is a bare `u32` subtraction that
underflows (a panic in debug builds) when `consumed > resource_limit`;
that outcome is modelled as `none`. -/
def GcraState.remaining_resources (s : GcraState) (rate_limit : RateLimit)
    (now : Int) : Option Nat :=
  if rate_limit.period = 0 then
    some 0
  else
    match s.tat with
    | none => some rate_limit.resource_limit
    | some tat =>
      if tat < now then
        some rate_limit.resource_limit
      else
        let time_to_tat : Nat := (tat - now).toNat
        let consumed_resources : F32 :=
          div_duration_f32 (time_to_tat * rate_limit.resource_limit)
            rate_limit.period
        let consumed := f32_ceil_as_u32 consumed_resources
        if consumed ≤ rate_limit.resource_limit then
          some (rate_limit.resource_limit - consumed)
        else
          none

/-- Modelled from the spec: `GcraState::revert_at` is called by
`RateLimitGuard::revert` (`src/rate_limit_guard.rs`) but its definition
is not present under `src/`. Per the spec (§4.1): reduce the recorded
`tat` by `emission_interval * cost`; if the computed value would precede
`now`, clamp to unset; reverting on an unset state is a no-op floor, not
a panic. The `Result` is always `Ok`. -/
def GcraState.revert_at (s : GcraState) (rate_limit : RateLimit)
    (now : Int) (cost : Nat) : Except GcraError Unit × GcraState :=
  match s.tat with
  | none => (.ok (), s)
  | some tat =>
    let new_tat := tat - rate_limit.increment_interval cost
    if new_tat < now then
      (.ok (), { tat := none })
    else
      (.ok (), { tat := some new_tat })

/-- Structure `RateLimitEntry` from `src/rate_limiter/entry.rs`: a `GcraState`
plus an expiration hint. -/
structure RateLimitEntry where
  gcra_state : GcraState
  expires_at : Option Int
deriving DecidableEq, Repr

/-- Method `RateLimitEntry::update_expiration` from `src/rate_limiter/entry.rs`:
`expires_at = tat.unwrap_or_else(Instant::now) + period`. The `now`
argument models the `Instant::now()` fallback used when `tat` is unset. -/
def RateLimitEntry.update_expiration (e : RateLimitEntry)
    (rate_limit : RateLimit) (now : Int) : RateLimitEntry :=
  { e with expires_at := some (e.gcra_state.tat.getD now + rate_limit.period) }

/-- The commit decision the `execute_mut` closure hands back to the
sharding layer in `RateLimiter::check_at`: `Commit::immediately` after an
admitted check, `Commit::noop` after a denial. -/
inductive CommitDecision where
  | immediately
  | noop
deriving DecidableEq, Repr

/-- The per-entry closure of `RateLimiter::check_at`
(`src/rate_limiter/rate_limiter.rs`, lines 89–101): run the Gcra check
against the entry's state; on `Ok` refresh the expiration and request an
immediate commit; on either denial return `Commit::noop` with the entry
as the Gcra core left it. The surrounding sharded store (`thingvellir`)
is an external collaborator; this models the synchronous unit of work it
executes under per-key exclusivity. -/
def RateLimiter.check_at_entry (e : RateLimitEntry) (rate_limit : RateLimit)
    (arrived_at : Int) (cost : Nat) (now : Int) :
    Except GcraError Unit × RateLimitEntry × CommitDecision :=
  let res := e.gcra_state.check_and_modify_at rate_limit arrived_at cost
  match res.1 with
  | .ok _ =>
    let e1 : RateLimitEntry := { e with gcra_state := res.2 }
    (.ok (), e1.update_expiration rate_limit now, .immediately)
  | .error err =>
    (.error err, { e with gcra_state := res.2 }, .noop)

/-- Decidable equality of check results, for concrete evaluation. -/
instance : DecidableEq (Except GcraError Unit) := fun a b =>
  match a, b with
  | .ok x, .ok y => isTrue (by cases x; cases y; rfl)
  | .ok _, .error _ => isFalse (fun h => Except.noConfusion h)
  | .error _, .ok _ => isFalse (fun h => Except.noConfusion h)
  | .error e1, .error e2 =>
    if h : e1 = e2 then isTrue (by rw [h])
    else isFalse (fun hc => h (by injection hc))

/-! ## Helper lemmas shared by the claim theorems -/

/-- Equational characterization of `check_and_modify_at` as a plain
decision tree, proved by unfolding the source definition. -/
theorem check_eq (s : GcraState) (rl : RateLimit) (t : Int) (c : Nat) :
    s.check_and_modify_at rl t c =
      if rl.increment_interval c > rl.period then
        (.error (.DeniedIndefinitely c rl), s)
      else
        match s.tat with
        | none => (.ok (), ⟨some (t + (rl.increment_interval c : Int))⟩)
        | some tat =>
          if tat < t then
            (.ok (), ⟨some (t + (rl.increment_interval c : Int))⟩)
          else if tat + (rl.increment_interval c : Int) - (rl.period : Int) < t then
            (.ok (), ⟨some (tat + (rl.increment_interval c : Int))⟩)
          else
            (.error (.DeniedUntil
              (tat + (rl.increment_interval c : Int) - (rl.period : Int))), s) := by
  obtain ⟨tat?⟩ := s
  cases tat? with
  | none =>
    simp only [GcraState.check_and_modify_at, compute_tat]
    split_ifs with h <;> simp
  | some tat =>
    simp only [GcraState.check_and_modify_at, compute_tat]
    split_ifs with h1 h2 h3 h4 <;> simp_all
    omega

/-- Evaluation of `check_and_modify_at` on a virgin state. -/
theorem check_eq_none (rl : RateLimit) (t : Int) (c : Nat) :
    GcraState.check_and_modify_at ⟨none⟩ rl t c =
      if rl.increment_interval c > rl.period then
        (.error (.DeniedIndefinitely c rl), ⟨none⟩)
      else
        (.ok (), ⟨some (t + (rl.increment_interval c : Int))⟩) := by
  rw [check_eq]

/-- Evaluation of `check_and_modify_at` on a state with a set `tat`. -/
theorem check_eq_some (tat : Int) (rl : RateLimit) (t : Int) (c : Nat) :
    GcraState.check_and_modify_at ⟨some tat⟩ rl t c =
      if rl.increment_interval c > rl.period then
        (.error (.DeniedIndefinitely c rl), ⟨some tat⟩)
      else if tat < t then
        (.ok (), ⟨some (t + (rl.increment_interval c : Int))⟩)
      else if tat + (rl.increment_interval c : Int) - (rl.period : Int) < t then
        (.ok (), ⟨some (tat + (rl.increment_interval c : Int))⟩)
      else
        (.error (.DeniedUntil
          (tat + (rl.increment_interval c : Int) - (rl.period : Int))), ⟨some tat⟩) := by
  rw [check_eq]

/-- Case analysis on `check_and_modify_at`: an admitted check leaves a set
`tat`, a denied check returns the state unchanged. -/
theorem check_cases (s : GcraState) (rl : RateLimit) (t : Int) (c : Nat) :
    ((s.check_and_modify_at rl t c).1 = .ok () ∧
      ∃ v, (s.check_and_modify_at rl t c).2 = ⟨some v⟩) ∨
    (∃ e, (s.check_and_modify_at rl t c).1 = .error e ∧
      (s.check_and_modify_at rl t c).2 = s) := by
  rw [check_eq]
  obtain ⟨tat?⟩ := s
  split_ifs with h
  · simp
  · cases tat? with
    | none => simp
    | some tat =>
      by_cases h1 : tat < t
      · simp [h1]
      · by_cases h2 : tat + (rl.increment_interval c : Int) - (rl.period : Int) < t
        · simp [h1, h2]
        · simp [h1, h2]

/-! ## C1: budget exactness at a single instant -/

/-- The state after `k` consecutive unit-cost checks issued at the same
instant `t0`, starting from the virgin state. -/
def stateAfter (rl : RateLimit) (t0 : Int) : Nat → GcraState
  | 0 => ⟨none⟩
  | k + 1 => ((stateAfter rl t0 k).check_and_modify_at rl t0 1).2

/-- The result of the `(k+1)`-th consecutive unit-cost check at `t0`
from the virgin state. -/
def resultAt (rl : RateLimit) (t0 : Int) (k : Nat) : Except GcraError Unit :=
  ((stateAfter rl t0 k).check_and_modify_at rl t0 1).1

/-- Invariant of the same-instant burst: while fewer than
`resource_limit` checks have been admitted, the `tat` sits at
`t0 + k * emission_interval`. Stated for a limit whose period is exactly
`resource_limit * emission_interval` (the exact-division case of
`RateLimit::new`). -/
theorem stateAfter_budget (N ei : Nat) (t0 : Int) (hei : 1 ≤ ei) :
    ∀ k, k < N →
      stateAfter ⟨N, N * ei, ei⟩ t0 k
        = if k = 0 then ⟨none⟩ else ⟨some (t0 + (k : Int) * (ei : Int))⟩ := by
  intro k
  induction k with
  | zero => intro _; simp [stateAfter]
  | succ k ih =>
    intro hk
    have hk' : k < N := Nat.lt_of_succ_lt hk
    have hN : 1 ≤ N := by omega
    have heipos : (0 : Int) < (ei : Int) := by exact_mod_cast hei
    have hkN : ((k : Int) + 1) < (N : Int) := by exact_mod_cast hk
    rw [stateAfter, ih hk']
    by_cases hk0 : k = 0
    · subst hk0
      rw [if_pos rfl, check_eq_none]
      simp only [RateLimit.increment_interval, mul_one]
      rw [if_neg (by
        simp only [gt_iff_lt, not_lt]
        have h : 1 * ei ≤ N * ei := Nat.mul_le_mul_right ei hN
        omega)]
      rw [if_neg Nat.one_ne_zero]
      norm_num
    · rw [if_neg hk0, check_eq_some]
      simp only [RateLimit.increment_interval, mul_one]
      rw [if_neg (Nat.succ_ne_zero k)]
      split_ifs with h0 ha hb
      · exfalso
        have h : 1 * ei ≤ N * ei := Nat.mul_le_mul_right ei hN
        simp only [gt_iff_lt] at h0
        omega
      · exfalso
        have h : (0 : Int) ≤ (k : Int) * (ei : Int) := by positivity
        omega
      · push_cast
        ring_nf
      · exfalso
        apply hb
        push_cast
        nlinarith [mul_lt_mul_of_pos_right hkN heipos]

/-- C1 (amended). Budget exactness at a single instant: for a
`RateLimit` with `resource_limit = N ≥ 2` and
`period = N * emission_interval` (exact division, as in the claim's
`N = 5, P = 1000ms` example), starting from a virgin state, the first
`N - 1` consecutive unit-cost checks at the same instant `t0` return
`Ok`, and the `N`-th such check at `t0` is denied with
`DeniedUntil (t0 + N * emission_interval - period) = DeniedUntil t0` —
not the `N + 1`-th, and the denial's `next_allowed_at` is `t0` itself,
below `t0 + emission_interval`. -/
theorem budget_exact_division (N ei : Nat) (t0 : Int)
    (hN : 2 ≤ N) (hei : 1 ≤ ei) :
    (∀ k, k + 1 < N → resultAt ⟨N, N * ei, ei⟩ t0 k = .ok ()) ∧
    (∀ k, k + 1 = N → resultAt ⟨N, N * ei, ei⟩ t0 k
      = .error (.DeniedUntil t0)) := by
  have heipos : (0 : Int) < (ei : Int) := by exact_mod_cast hei
  have hNei : 1 * ei ≤ N * ei := Nat.mul_le_mul_right ei (by omega)
  constructor
  · intro k hk
    rw [resultAt, stateAfter_budget N ei t0 hei k (by omega)]
    have hkN : ((k : Int) + 1) < (N : Int) := by exact_mod_cast hk
    by_cases hk0 : k = 0
    · subst hk0
      rw [if_pos rfl, check_eq_none]
      simp only [RateLimit.increment_interval, mul_one]
      rw [if_neg (by simp only [gt_iff_lt]; omega)]
    · rw [if_neg hk0, check_eq_some]
      simp only [RateLimit.increment_interval, mul_one]
      rw [if_neg (by simp only [gt_iff_lt]; omega)]
      rw [if_neg (by
        have h : (0 : Int) ≤ (k : Int) * (ei : Int) := by positivity
        omega)]
      rw [if_pos (by push_cast; nlinarith [mul_lt_mul_of_pos_right hkN heipos])]
  · intro k hk
    have hk0 : k ≠ 0 := by omega
    have hkN : ((k : Int) + 1) = (N : Int) := by exact_mod_cast hk
    rw [resultAt, stateAfter_budget N ei t0 hei k (by omega)]
    rw [if_neg hk0, check_eq_some]
    simp only [RateLimit.increment_interval, mul_one]
    rw [if_neg (by simp only [gt_iff_lt]; omega)]
    rw [if_neg (by
      have h : (0 : Int) ≤ (k : Int) * (ei : Int) := by positivity
      omega)]
    have heq : t0 + (k : Int) * (ei : Int) + (ei : Int)
        - ((N * ei : Nat) : Int) = t0 := by
      push_cast
      nlinarith [hkN]
    rw [heq, if_neg (lt_irrefl t0)]

/-- Counterexample to C1 as stated: with `N = 5, P = 1000ms`
(`emission_interval = 200ms`), the fifth unit-cost check at the same
instant `t0 = 0` is already denied — with `DeniedUntil t0`, not `Ok` —
so it is not the case that exactly five same-instant checks succeed,
nor that the first denial's `next_allowed_at` is `t0 + 200ms`. -/
theorem budget_claim_counterexample :
    resultAt ⟨5, 1000, 200⟩ 0 3 = .ok () ∧
    resultAt ⟨5, 1000, 200⟩ 0 4 = .error (.DeniedUntil 0) := by
  constructor <;> decide

/-- Witness for C1 (amended) at `N = 5`, `emission_interval = 200`,
`t0 = 0`: the fourth check succeeds and the fifth is denied until `t0`. -/
theorem budget_exact_division_witness :
    resultAt ⟨5, 5 * 200, 200⟩ 0 3 = .ok () ∧
    resultAt ⟨5, 5 * 200, 200⟩ 0 4 = .error (.DeniedUntil 0) :=
  ⟨(budget_exact_division 5 200 0 (by decide) (by decide)).1 3 (by decide),
   (budget_exact_division 5 200 0 (by decide) (by decide)).2 4 (by decide)⟩


/-! ## C6: leak recovery -/

/-- C6 (amended). Leak recovery around a fully consumed bucket
(`tat = t0 + period`): the unit-cost check issued exactly one
`emission_interval` after `t0` is still denied (with
`DeniedUntil (t0 + emission_interval)`), as is the check one time unit
earlier; the check issued strictly after one `emission_interval`
(one unit later) is admitted, and exactly one such check is admitted —
an immediate second check at that same instant is denied again. -/
theorem leak_recovery_strict (N P ei : Nat) (t0 : Int)
    (hei : 1 ≤ ei) (heiP : ei < P) :
    GcraState.check_and_modify_at ⟨some (t0 + P)⟩ ⟨N, P, ei⟩ (t0 + ei) 1
      = (.error (.DeniedUntil (t0 + ei)), ⟨some (t0 + P)⟩) ∧
    GcraState.check_and_modify_at ⟨some (t0 + P)⟩ ⟨N, P, ei⟩ (t0 + ei - 1) 1
      = (.error (.DeniedUntil (t0 + ei)), ⟨some (t0 + P)⟩) ∧
    GcraState.check_and_modify_at ⟨some (t0 + P)⟩ ⟨N, P, ei⟩ (t0 + ei + 1) 1
      = (.ok (), ⟨some (t0 + P + ei)⟩) ∧
    GcraState.check_and_modify_at ⟨some (t0 + P + ei)⟩ ⟨N, P, ei⟩ (t0 + ei + 1) 1
      = (.error (.DeniedUntil (t0 + 2 * ei)), ⟨some (t0 + P + ei)⟩) := by
  refine ⟨?_, ?_, ?_, ?_⟩ <;>
    (rw [check_eq_some]
     simp only [RateLimit.increment_interval, mul_one]
     rw [if_neg (by simp only [gt_iff_lt]; omega)])
  · rw [if_neg (by omega), if_neg (by omega)]
    simp only [Prod.mk.injEq, Except.error.injEq, GcraError.DeniedUntil.injEq]
    exact ⟨by omega, trivial⟩
  · rw [if_neg (by omega), if_neg (by omega)]
    simp only [Prod.mk.injEq, Except.error.injEq, GcraError.DeniedUntil.injEq]
    exact ⟨by omega, trivial⟩
  · rw [if_neg (by omega), if_pos (by omega)]
  · rw [if_neg (by omega), if_neg (by omega)]
    simp only [Prod.mk.injEq, Except.error.injEq, GcraError.DeniedUntil.injEq]
    exact ⟨by omega, trivial⟩

/-- Counterexample to C6 as stated: with `N = 5, P = 1000ms`
(`emission_interval = 200ms`) and a bucket fully consumed at `t0 = 0`
(`tat = 1000`), the unit-cost check issued exactly one
`emission_interval` after `t0` (at `t = 200`) is denied, not admitted. -/
theorem leak_recovery_counterexample :
    GcraState.check_and_modify_at ⟨some 1000⟩ ⟨5, 1000, 200⟩ 200 1
      = (.error (.DeniedUntil 200), ⟨some 1000⟩) := by
  decide

/-- Witness for C6 (amended) at `N = 5`, `P = 1000`, `ei = 200`,
`t0 = 0`: denied at `t = 200`, admitted at `t = 201`. -/
theorem leak_recovery_strict_witness :
    GcraState.check_and_modify_at ⟨some ((0 : Int) + (1000 : Nat))⟩
        ⟨5, 1000, 200⟩ ((0 : Int) + (200 : Nat)) 1
      = (.error (.DeniedUntil ((0 : Int) + (200 : Nat))),
         ⟨some ((0 : Int) + (1000 : Nat))⟩) ∧
    GcraState.check_and_modify_at ⟨some ((0 : Int) + (1000 : Nat))⟩
        ⟨5, 1000, 200⟩ ((0 : Int) + (200 : Nat) + 1) 1
      = (.ok (), ⟨some ((0 : Int) + (1000 : Nat) + (200 : Nat))⟩) :=
  ⟨(leak_recovery_strict 5 1000 200 0 (by decide) (by decide)).1,
   (leak_recovery_strict 5 1000 200 0 (by decide) (by decide)).2.2.1⟩

/-! ## C4: remaining-resources consistency -/

/-- Evaluation of `remaining_resources` on a virgin state: the full limit. -/
theorem remaining_eq_none (rl : RateLimit) (now : Int) (hP : rl.period ≠ 0) :
    GcraState.remaining_resources ⟨none⟩ rl now = some rl.resource_limit := by
  unfold GcraState.remaining_resources
  rw [if_neg hP]

/-- Evaluation of `remaining_resources` on a set `tat`, as a decision
tree (`none` models the `u32` underflow of `resource_limit - consumed`). -/
theorem remaining_eq_some (tat : Int) (rl : RateLimit) (now : Int)
    (hP : rl.period ≠ 0) :
    GcraState.remaining_resources ⟨some tat⟩ rl now =
      if tat < now then some rl.resource_limit
      else if f32_ceil_as_u32 (div_duration_f32
          ((tat - now).toNat * rl.resource_limit) rl.period)
          ≤ rl.resource_limit then
        some (rl.resource_limit - f32_ceil_as_u32 (div_duration_f32
          ((tat - now).toNat * rl.resource_limit) rl.period))
      else none := by
  unfold GcraState.remaining_resources
  rw [if_neg hP]

/-- C4 (amended). Remaining-resources consistency: any value
`remaining_resources` actually returns is at most `resource_limit`, and
it returns the full `resource_limit` whenever `tat` is unset or `tat`
has already passed `now`. But the claim's two remaining parts fail on
the code. When the consumed amount exceeds `resource_limit` the code
does **not** clamp to zero: the `u32` subtraction underflows (modelled
as `none`), see the counterexample. And the remaining count does not
always decrease by exactly `cost` after an admitted check: the consumed
count goes through `f32` arithmetic, whose rounding can overstate it —
with `RateLimit(resource_limit = 16777217, period = 16777217ns)`
(`emission_interval = 1ns`, exact division) an admitted check of cost
`3` at `t0` on a virgin bucket leaves `remaining = 16777217 - 4`, a
decrease of `4`: the exact consumed ratio `50331651 / 16777217` rounds
through binary32 to `50331652 / 16777216 ≈ 3.0000002`, whose ceiling is
`4`. The last two conjuncts exhibit that run. -/
theorem remaining_resources_props (s : GcraState) (rl : RateLimit) (now : Int) :
    (∀ v, s.remaining_resources rl now = some v → v ≤ rl.resource_limit) ∧
    (rl.period ≠ 0 → s.tat = none →
      s.remaining_resources rl now = some rl.resource_limit) ∧
    (rl.period ≠ 0 → ∀ tat0, s.tat = some tat0 → tat0 < now →
      s.remaining_resources rl now = some rl.resource_limit) ∧
    ((GcraState.check_and_modify_at ⟨none⟩ ⟨16777217, 16777217, 1⟩ 0 3).1
      = .ok () ∧
     (GcraState.check_and_modify_at ⟨none⟩ ⟨16777217, 16777217, 1⟩ 0
          3).2.remaining_resources ⟨16777217, 16777217, 1⟩ 0
      = some (16777217 - 4)) := by
  obtain ⟨tat?⟩ := s
  refine ⟨?_, ?_, ?_, by decide, by decide⟩
  · -- never exceeds the limit
    intro v hv
    unfold GcraState.remaining_resources at hv
    split_ifs at hv with h1
    · simp at hv
      omega
    · cases tat? with
      | none =>
        simp at hv
        omega
      | some tat =>
        simp only at hv
        split_ifs at hv with h2 h3
        · simp at hv
          omega
        · simp at hv
          subst hv
          exact Nat.sub_le _ _
  · -- full budget on a virgin state
    intro hP htat
    simp only at htat
    subst htat
    exact remaining_eq_none rl now hP
  · -- full budget once tat has passed now
    intro hP tat0 htat hlt
    simp only at htat
    subst htat
    rw [remaining_eq_some _ _ _ hP, if_pos hlt]

/-- Counterexample to C4 as stated: with `RateLimit ⟨1, 1000, 1000⟩`,
`tat = 2000` and `now = 0`, the consumed amount is
`ceil(2000 / 1000) = 2 > resource_limit = 1` (the binary32 quotient is
exactly `2.0` here); the claim says the result is clamped to zero, but
the code's `u32` subtraction `resource_limit - consumed` underflows (a
panic in debug builds, a wrap in release builds) — modelled as `none`,
not `some 0`. -/
theorem remaining_underflow_counterexample :
    GcraState.remaining_resources ⟨some 2000⟩ ⟨1, 1000, 1000⟩ 0 = none := by
  decide

/-- Witness for C4 (amended): the full limit of a virgin bucket with
`RateLimit ⟨5, 1000, 200⟩`. -/
theorem remaining_resources_props_witness :
    GcraState.remaining_resources ⟨none⟩ ⟨5, 1000, 200⟩ 0 = some 5 :=
  (remaining_resources_props ⟨none⟩ ⟨5, 1000, 200⟩ 0).2.1 (by decide) rfl

/-! ## C5: construction validation -/

/-- C5 (amended). Construction `RateLimit::new` performs no validation: it fails
(panics with a division by zero, modelled as `none`) exactly when
`resource_limit = 0`; a zero `period` is accepted and silently yields
`emission_interval = 0`; for every `resource_limit > 0` the value is
constructed with `emission_interval = period / resource_limit`
(truncating integer division) computed once at construction. -/
theorem rate_limit_new_spec (r p : Nat) (hr : r ≠ 0) :
    (∀ q, RateLimit.new 0 q = none) ∧
    RateLimit.new r p = some ⟨r, p, p / r⟩ := by
  constructor
  · intro q
    simp [RateLimit.new]
  · simp [RateLimit.new, hr]

/-- Counterexample to C5 as stated: construction with
`resource_limit = 5, period = 0` does not fail — it succeeds and returns
a `RateLimit` with `emission_interval = 0`. -/
theorem rate_limit_new_period_zero_counterexample :
    RateLimit.new 5 0 = some ⟨5, 0, 0⟩ := by
  decide

/-- Witness for C5 (amended) at `r = 5`, `p = 1000`. -/
theorem rate_limit_new_spec_witness :
    RateLimit.new 0 7 = none ∧ RateLimit.new 5 1000 = some ⟨5, 1000, 200⟩ :=
  ⟨(rate_limit_new_spec 5 1000 (by decide)).1 7,
   by
    have h := (rate_limit_new_spec 5 1000 (by decide)).2
    norm_num at h ⊢
    exact h⟩

/-! ## C7: revert semantics and the inverse law -/

/-- Evaluation of `revert_at` on a virgin state: a no-op. -/
theorem revert_eq_none (rl : RateLimit) (now : Int) (c : Nat) :
    GcraState.revert_at ⟨none⟩ rl now c = (.ok (), ⟨none⟩) := rfl

/-- Evaluation of `revert_at` on a set `tat`: subtract the increment, clamping to
unset when the result would precede `now`. -/
theorem revert_eq_some (tat : Int) (rl : RateLimit) (now : Int) (c : Nat) :
    GcraState.revert_at ⟨some tat⟩ rl now c =
      if tat - (rl.increment_interval c : Int) < now then
        (.ok (), ⟨none⟩)
      else
        (.ok (), ⟨some (tat - (rl.increment_interval c : Int))⟩) := rfl

/-- C7 (amended). Revert semantics: `revert_at` always returns `Ok`
(no-op floor, never a panic); any `tat` it leaves set is exactly the
prior `tat` minus `emission_interval * cost` and is never earlier than
`now` (otherwise it clamps to unset). Inverse law: for any admitted
check of cost `c` at time `t` whose increment is strictly below the
period, immediately reverting `c` at `t` and re-checking cost `c` at `t`
succeeds again. (When the increment equals the period exactly, the
re-check after a clamped revert is denied — see the counterexample.) -/
theorem revert_props (s : GcraState) (rl : RateLimit) (now t : Int) (c : Nat) :
    (GcraState.revert_at s rl now c).1 = .ok () ∧
    (∀ v, ((GcraState.revert_at s rl now c).2).tat = some v →
      now ≤ v ∧ ∃ tat0, s.tat = some tat0 ∧
        v = tat0 - (rl.increment_interval c : Int)) ∧
    ((s.check_and_modify_at rl t c).1 = .ok () →
      rl.increment_interval c < rl.period →
      ((((s.check_and_modify_at rl t c).2).revert_at rl t c).2).check_and_modify_at rl t c
        = (.ok (), (s.check_and_modify_at rl t c).2)) := by
  obtain ⟨tat?⟩ := s
  refine ⟨?_, ?_, ?_⟩
  · cases tat? with
    | none => rfl
    | some tat0 =>
      rw [revert_eq_some]
      split_ifs <;> rfl
  · cases tat? with
    | none =>
      intro v hv
      rw [revert_eq_none] at hv
      simp at hv
    | some tat0 =>
      intro v hv
      rw [revert_eq_some] at hv
      split_ifs at hv with hc
      simp only [GcraState.tat, Option.some.injEq] at hv
      exact ⟨by omega, tat0, rfl, hv.symm⟩
  · intro hok hlt
    cases tat? with
    | none =>
      have h2 : (GcraState.check_and_modify_at ⟨none⟩ rl t c).2
          = ⟨some (t + (rl.increment_interval c : Int))⟩ := by
        rw [check_eq_none, if_neg (by omega)]
      rw [h2, revert_eq_some, if_neg (by omega)]
      have h3 : t + (rl.increment_interval c : Int)
          - (rl.increment_interval c : Int) = t := by omega
      rw [h3, check_eq_some, if_neg (by omega), if_neg (lt_irrefl t),
        if_pos (by omega)]
    | some tat0 =>
      by_cases h1 : tat0 < t
      · have h2 : (GcraState.check_and_modify_at ⟨some tat0⟩ rl t c).2
            = ⟨some (t + (rl.increment_interval c : Int))⟩ := by
          rw [check_eq_some, if_neg (by omega), if_pos h1]
        rw [h2, revert_eq_some, if_neg (by omega)]
        have h3 : t + (rl.increment_interval c : Int)
            - (rl.increment_interval c : Int) = t := by omega
        rw [h3, check_eq_some, if_neg (by omega), if_neg (lt_irrefl t),
          if_pos (by omega)]
      · have hadm : tat0 + (rl.increment_interval c : Int) - (rl.period : Int)
            < t := by
          by_contra hadm
          rw [check_eq_some, if_neg (by omega), if_neg h1, if_neg hadm] at hok
          simp at hok
        have h2 : (GcraState.check_and_modify_at ⟨some tat0⟩ rl t c).2
            = ⟨some (tat0 + (rl.increment_interval c : Int))⟩ := by
          rw [check_eq_some, if_neg (by omega), if_neg h1, if_pos hadm]
        rw [h2, revert_eq_some, if_neg (by omega)]
        have h3 : tat0 + (rl.increment_interval c : Int)
            - (rl.increment_interval c : Int) = tat0 := by omega
        rw [h3, check_eq_some, if_neg (by omega), if_neg h1, if_pos hadm]

/-- Counterexample to C7's unconditional inverse law: with
`RateLimit ⟨1, 1000, 1000⟩` (`emission_interval = period`), the unit
check at `t = 0` from a virgin state is admitted (`tat = 1000`), the
revert at `t = 0` brings `tat` back to `0` (not below `now`, so no
clamp), and the re-check of the same cost at `t = 0` is denied with
`DeniedUntil 0` instead of succeeding. -/
theorem revert_inverse_counterexample :
    (GcraState.check_and_modify_at ⟨none⟩ ⟨1, 1000, 1000⟩ 0 1).1 = .ok () ∧
    GcraState.revert_at
        (GcraState.check_and_modify_at ⟨none⟩ ⟨1, 1000, 1000⟩ 0 1).2
        ⟨1, 1000, 1000⟩ 0 1 = (.ok (), ⟨some 0⟩) ∧
    GcraState.check_and_modify_at ⟨some 0⟩ ⟨1, 1000, 1000⟩ 0 1
      = (.error (.DeniedUntil 0), ⟨some 0⟩) := by
  refine ⟨by decide, by decide, by decide⟩

/-- Witness for C7 (amended) at `RateLimit ⟨5, 1000, 200⟩`, virgin
state, `t = now = 0`, `cost = 1`: check, revert, re-check all succeed. -/
theorem revert_props_witness :
    (GcraState.check_and_modify_at ⟨none⟩ ⟨5, 1000, 200⟩ 0 1).1 = .ok () ∧
    ((((GcraState.check_and_modify_at ⟨none⟩ ⟨5, 1000, 200⟩ 0 1).2).revert_at
        ⟨5, 1000, 200⟩ 0 1).2).check_and_modify_at ⟨5, 1000, 200⟩ 0 1
      = (.ok (), (GcraState.check_and_modify_at ⟨none⟩ ⟨5, 1000, 200⟩ 0 1).2) :=
  ⟨by decide,
   (revert_props ⟨none⟩ ⟨5, 1000, 200⟩ 0 0 1).2.2 (by decide) (by decide)⟩

/-! ## C2: indefinite denial -/

/-- C2. Indefinite denial: for every `GcraState` (including the virgin
one), every `RateLimit`, every arrival time and every `cost` whose
increment `cost * emission_interval` exceeds the period,
`check_and_modify_at` returns `DeniedIndefinitely` carrying that cost and
rate limit, and leaves the state unmutated. -/
theorem check_denied_indefinitely (s : GcraState) (rl : RateLimit)
    (now : Int) (cost : Nat)
    (h : rl.increment_interval cost > rl.period) :
    s.check_and_modify_at rl now cost
      = (.error (.DeniedIndefinitely cost rl), s) := by
  obtain ⟨tat?⟩ := s
  cases tat? with
  | none => simp [GcraState.check_and_modify_at, compute_tat, h]
  | some tat =>
    simp only [GcraState.check_and_modify_at, compute_tat]
    split_ifs with h1 <;> simp [h]

/-- Witness for C2 at `tat = 5`, `RateLimit ⟨1, 10, 10⟩`, `now = 0`,
`cost = 2`: the increment `20` exceeds the period `10`. -/
theorem check_denied_indefinitely_witness :
    RateLimit.increment_interval ⟨1, 10, 10⟩ 2 > (10 : Nat) ∧
    GcraState.check_and_modify_at ⟨some 5⟩ ⟨1, 10, 10⟩ 0 2
      = (.error (.DeniedIndefinitely 2 ⟨1, 10, 10⟩), ⟨some 5⟩) :=
  ⟨by decide, check_denied_indefinitely ⟨some 5⟩ ⟨1, 10, 10⟩ 0 2 (by decide)⟩

/-! ## C3: state immutability on denial -/

/-- C3. State immutability on denial: whenever `check_and_modify_at`
returns an `Err` (either `DeniedUntil` or `DeniedIndefinitely`), the
`GcraState` after the call equals the `GcraState` before the call. -/
theorem check_denied_state_unchanged (s : GcraState) (rl : RateLimit)
    (now : Int) (cost : Nat) (e : GcraError)
    (h : (s.check_and_modify_at rl now cost).1 = .error e) :
    (s.check_and_modify_at rl now cost).2 = s := by
  rcases check_cases s rl now cost with ⟨hok, -⟩ | ⟨e', -, hs⟩
  · rw [hok] at h
    exact absurd h (by simp)
  · exact hs

/-- Witness for C3 at `tat = 1000`, `RateLimit ⟨5, 1000, 200⟩`,
`now = 200`, `cost = 1`: the check is denied and the state is returned
unchanged. -/
theorem check_denied_state_unchanged_witness :
    (GcraState.check_and_modify_at ⟨some 1000⟩ ⟨5, 1000, 200⟩ 200 1).1
      = .error (.DeniedUntil 200) ∧
    (GcraState.check_and_modify_at ⟨some 1000⟩ ⟨5, 1000, 200⟩ 200 1).2
      = ⟨some 1000⟩ :=
  ⟨by decide,
   check_denied_state_unchanged ⟨some 1000⟩ ⟨5, 1000, 200⟩ 200 1
     (.DeniedUntil 200) (by decide)⟩

/-! ## C10: denial timestamp is never in the past -/

/-- C10. Whenever `check_and_modify_at` returns
`DeniedUntil next_allowed_at`, the prior state held a `tat` and
`next_allowed_at = tat + cost * emission_interval - period`; moreover
`next_allowed_at` is never earlier than the arrival time. -/
theorem denied_until_next_allowed (s : GcraState) (rl : RateLimit)
    (t : Int) (cost : Nat) (n : Int)
    (h : (s.check_and_modify_at rl t cost).1 = .error (.DeniedUntil n)) :
    (∃ tat0, s.tat = some tat0 ∧
      n = tat0 + (rl.increment_interval cost : Int) - (rl.period : Int)) ∧
    t ≤ n := by
  rw [check_eq] at h
  obtain ⟨tat?⟩ := s
  split_ifs at h with h0
  · simp at h
  · cases tat? with
    | none => simp at h
    | some tat =>
      by_cases h1 : tat < t
      · simp [h1] at h
      · by_cases h2 : tat + (rl.increment_interval cost : Int) - (rl.period : Int) < t
        · simp [h1, h2] at h
        · simp only [h1, h2, if_neg, if_false, Except.error.injEq,
            GcraError.DeniedUntil.injEq] at h
          exact ⟨⟨tat, rfl, by omega⟩, by omega⟩

/-- Witness for C10 at `tat = 100`, `RateLimit ⟨2, 100, 50⟩`, `t = 50`,
`cost = 1`: the denial carries `next_allowed_at = 100 + 50 - 100 = 50 ≥ t`. -/
theorem denied_until_next_allowed_witness :
    (GcraState.check_and_modify_at ⟨some 100⟩ ⟨2, 100, 50⟩ 50 1).1
      = .error (.DeniedUntil 50) ∧
    ((∃ tat0, (⟨some 100⟩ : GcraState).tat = some tat0 ∧
        (50 : Int) = tat0 + (RateLimit.increment_interval ⟨2, 100, 50⟩ 1 : Int)
          - ((100 : Nat) : Int)) ∧
      (50 : Int) ≤ 50) :=
  ⟨by decide,
   denied_until_next_allowed ⟨some 100⟩ ⟨2, 100, 50⟩ 50 1 50 (by decide)⟩

/-! ## C8: commit-iff-admitted -/

/-- C8. Commit-iff-admitted: in the per-entry unit of work of
`RateLimiter::check_at`, a commit is requested if and only if the Gcra
core admits the request; on admission the entry's `expires_at` is
refreshed to `tat + period` (the admitted state always has a set `tat`,
so the `(tat or now)` fallback resolves to `tat`) and the commit is
immediate; on either denial no commit is issued (`Commit::noop`) and the
entry — state and expiration — is exactly as the Gcra core left it,
i.e. unchanged. -/
theorem commit_iff_admitted (e : RateLimitEntry) (rl : RateLimit)
    (t : Int) (c : Nat) (now : Int) :
    ((RateLimiter.check_at_entry e rl t c now).2.2 = CommitDecision.immediately
      ↔ (RateLimiter.check_at_entry e rl t c now).1 = .ok ()) ∧
    ((RateLimiter.check_at_entry e rl t c now).1 = .ok () →
      ∃ v, (RateLimiter.check_at_entry e rl t c now).2.1.gcra_state.tat = some v ∧
        (RateLimiter.check_at_entry e rl t c now).2.1.expires_at
          = some (v + (rl.period : Int))) ∧
    (∀ err, (RateLimiter.check_at_entry e rl t c now).1 = .error err →
      (RateLimiter.check_at_entry e rl t c now).2.1 = e ∧
      (RateLimiter.check_at_entry e rl t c now).2.2 = CommitDecision.noop) := by
  rcases check_cases e.gcra_state rl t c with ⟨hok, v, hv⟩ | ⟨err0, herr, hs⟩
  · simp only [RateLimiter.check_at_entry, hok, hv,
      RateLimitEntry.update_expiration]
    refine ⟨by simp, fun _ => ⟨v, by simp, by simp⟩, fun err h => ?_⟩
    simp at h
  · simp only [RateLimiter.check_at_entry, herr, hs]
    refine ⟨by simp, fun h => by simp at h, fun err h => ⟨by trivial, by trivial⟩⟩

/-- Witness for C8 at a virgin entry, `RateLimit ⟨5, 1000, 200⟩`,
`t = now = 0`, `cost = 1`: the check is admitted and an immediate commit
is requested. -/
theorem commit_iff_admitted_witness :
    (RateLimiter.check_at_entry ⟨⟨none⟩, none⟩ ⟨5, 1000, 200⟩ 0 1 0).1
      = .ok () ∧
    (RateLimiter.check_at_entry ⟨⟨none⟩, none⟩ ⟨5, 1000, 200⟩ 0 1 0).2.2
      = CommitDecision.immediately :=
  ⟨by decide,
   ((commit_iff_admitted ⟨⟨none⟩, none⟩ ⟨5, 1000, 200⟩ 0 1 0).1).mpr
     (by decide)⟩

end Gcra
